import Mathlib

/-!
# Typeclass-interface pattern in C: dispatch tables and type-erased handles

A shallow embedding of the four C programs of the repository
(`barebones.c`, `barebones-macro.c`, `name-constrained.c`,
`barebones-combined.c`) and the properties of their dispatch mechanism.

Modelling conventions.

* An address (`void*`, `int*`, `Antioch*`, `char*`) is a natural number, `0` is `NULL`.
* The memory holds the `int`-sized objects a `self` pointer may refer to, the live
  `malloc` blocks, and the bytes written to `stdout`.  Two counters record how many
  times `malloc` and `free` have run.
* `malloc` never returns `NULL` (unbounded memory).  Every other way a C call can be
  undefined (reading through a pointer to no object, `strcpy` into a block that is
  too small, `free` of a block that is not live) is the result `none`.
* A function pointer is a Lean function on the memory; converting a pointer to a
  function taking `T*` into one taking `void*` leaves the function it calls unchanged.
* The three copies of `print`, `strdup_` and `antioch_show` (one per translation unit)
  are embedded separately, each in the namespace of its file.
* A pointer to a `static ... const` table is the symbol of that table together with
  the table's immutable contents.
-/

namespace TypeclassC

/-! ## Memory -/

/-- An address; `0` is the null pointer. -/
abbrev Addr := Nat

/-- A block obtained from `malloc`: its size in bytes and the C string stored at its
start (`none` while the block is uninitialised). -/
structure Block where
  size : Nat
  str : Option String

/-- The program state. -/
structure Mem where
  /-- The live `int`/`enum` objects (automatic storage), by address. -/
  objs : List (Addr × Int)
  /-- The live `malloc` blocks. -/
  heap : List (Addr × Block)
  /-- Everything written to `stdout` so far. -/
  out : String
  /-- Number of `malloc` calls so far. -/
  mallocs : Nat
  /-- Number of `free` calls (of a non-null pointer) so far. -/
  frees : Nat

/-- A C computation returning `α`: `none` is undefined behaviour. -/
abbrev Exec (α : Type) := Mem → Option (α × Mem)

/-- Read through an `int*` / `Antioch*`. -/
def Mem.load (m : Mem) (p : Addr) : Option Int := m.objs.lookup p

/-- The live block at `p`, if any; there is none at `NULL`. -/
def Mem.block (m : Mem) (p : Addr) : Option Block :=
  if p = 0 then none else m.heap.lookup p

/-- The C string stored in the live block at `p`, if any. -/
def Mem.strAt (m : Mem) (p : Addr) : Option String := (m.block p).bind Block.str

/-- The addresses of the live heap blocks. -/
def Mem.live (m : Mem) : List Addr := m.heap.map Prod.fst

/-- An address above every live block, every live object and `NULL`. -/
def Mem.fresh (m : Mem) : Addr := (m.live ++ m.objs.map Prod.fst).foldr max 0 + 1

/-- A new automatic object holding `v` (a declaration `int x = v;` or a compound literal
`(Antioch){ v }`); returns its address. -/
def Mem.declare (m : Mem) (v : Int) : Addr × Mem :=
  (m.fresh, { m with objs := (m.fresh, v) :: m.objs })

/-- Replace the contents of the block at `p`. -/
def setBlock (p : Addr) (b : Block) : List (Addr × Block) → List (Addr × Block)
  | [] => []
  | (q, c) :: rest => if q = p then (q, b) :: rest else (q, c) :: setBlock p b rest

/-! ## The C library calls the programs use -/

/-- Library call `malloc(n)`: a new uninitialised block at an address that is not live. -/
def malloc (n : Nat) : Exec Addr := fun m =>
  some (m.fresh, { m with heap := (m.fresh, { size := n, str := none }) :: m.heap,
                          mallocs := m.mallocs + 1 })

/-- Library call `free(p)`: `free(NULL)` does nothing, freeing a block that is not live is
undefined. -/
def free (p : Addr) : Exec Unit := fun m =>
  if p = 0 then some ((), m)
  else match m.block p with
    | none => none
    | some _ => some ((), { m with heap := m.heap.filter (fun e => e.1 != p),
                                   frees := m.frees + 1 })

/-- Library call `strlen` of a string literal. -/
def strlen (x : String) : Nat := x.length

/-- Library call `strcpy(dst, src)` for a string literal `src`: the block at `dst` must
hold `strlen(src) + 1` bytes.  Returns `dst`. -/
def strcpy (dst : Addr) (src : String) : Exec Addr := fun m =>
  match m.block dst with
  | none => none
  | some b =>
    if strlen src + 1 ≤ b.size then
      some (dst, { m with heap := setBlock dst { b with str := some src } m.heap })
    else none

/-- Library call `puts(s)`: writes the string at `s` and a newline. -/
def puts (s : Addr) : Exec Unit := fun m =>
  match m.strAt s with
  | none => none
  | some str => some ((), { m with out := m.out ++ str ++ "\n" })

/-- The decimal digits of `n`, most significant first, without leading zeros
(`fuel` bounds the number of digits). -/
def decDigits : Nat → Nat → List Char
  | 0, _ => []
  | fuel + 1, n =>
    if n < 10 then [Nat.digitChar n]
    else decDigits fuel (n / 10) ++ [Nat.digitChar (n % 10)]

/-- The conversion `%d` of the `printf` family: an optional minus sign and the decimal
digits of the magnitude. -/
def fmt_d (v : Int) : String :=
  if v < 0 then String.mk ('-' :: decDigits (v.natAbs + 1) v.natAbs)
  else String.mk (decDigits (v.toNat + 1) v.toNat)

/-- Library call `snprintf(buf, n, "%d", v)`: returns the length of the full conversion
and, when `n > 0`, stores at most `n - 1` of its characters (and the terminator) in the
block at `buf`, which must hold `n` bytes.  With `n = 0` nothing is written and `buf`
may be `NULL`. -/
def snprintf_d (buf : Addr) (n : Nat) (v : Int) : Exec Nat := fun m =>
  if n = 0 then some ((fmt_d v).length, m)
  else match m.block buf with
    | none => none
    | some b =>
      if n ≤ b.size then
        let written : Block := { b with str := some (String.mk ((fmt_d v).data.take (n - 1))) }
        some ((fmt_d v).length, { m with heap := setBlock buf written m.heap })
      else none

/-- Library call `printf("%s : %d\n", s, d)`. -/
def printf_s_d (s : Addr) (d : Int) : Exec Unit := fun m =>
  match m.strAt s with
  | none => none
  | some str => some ((), { m with out := m.out ++ str ++ " : " ++ fmt_d d ++ "\n" })

/-- The value of one decimal digit character. -/
def digitVal (c : Char) : Option Nat :=
  if 48 ≤ c.toNat ∧ c.toNat ≤ 57 then some (c.toNat - 48) else none

/-- Read a string of decimal digits, given the value read so far. -/
def readDigits : List Char → Nat → Option Nat
  | [], acc => some acc
  | c :: cs, acc =>
    match digitVal c with
    | none => none
    | some d => readDigits cs (10 * acc + d)

/-- Read a text as a signed decimal number: an optional minus sign followed by at least
one digit and nothing else. -/
def readDec (s : String) : Option Int :=
  if s.data.head? = some '-' then
    if s.data.tail = [] then none
    else match readDigits s.data.tail 0 with
      | none => none
      | some n => some (-(n : Int))
  else if s.data = [] then none
  else match readDigits s.data 0 with
    | none => none
    | some n => some (n : Int)

/-! ## The typeclass structs -/

/-- A pointer to a `static const` object: the symbol of the object (the function whose
body declares it) and its contents, which never change. -/
structure ConstPtr (α : Type) where
  sym : String
  pointee : α

/-- The table `ShowTC` (the same in all four files): one slot,
`char* (*const show)(void* self)`. -/
structure ShowTC where
  «show» : Addr → Exec Addr

/-- The handle `Show` (the same in all four files): `void* self` and `ShowTC const* tc`. -/
structure Show where
  self : Addr
  tc : ConstPtr ShowTC

/-- The table `EnumTC` of barebones-combined.c: one slot,
`int (*const from_enum)(void* self)`. -/
structure EnumTC where
  from_enum : Addr → Exec Int

/-- The handle `Enum` of barebones-combined.c. -/
structure Enum where
  self : Addr
  tc : ConstPtr EnumTC

/-- The combined handle `ShowEnum` of barebones-combined.c: one `self` and one table
pointer per typeclass. -/
structure ShowEnum where
  self : Addr
  showtc : ConstPtr ShowTC
  enumtc : ConstPtr EnumTC

/-- First enumerator of `Antioch`. -/
def holy : Int := 0
/-- Second enumerator of `Antioch`. -/
def hand : Int := 1
/-- Third enumerator of `Antioch`. -/
def grenade : Int := 2

/-- The conversion `(char* (*const)(void*))(show_f)` of a function taking `T*`: pointers to
`T` and to `void` are both addresses, and a call through the converted pointer runs
`show_f` on the address it is given. -/
def castShow (show_f : Addr → Exec Addr) : Addr → Exec Addr := show_f

/-- A function definition produced by expanding `impl_show`: the identifier it defines and
the function. -/
structure BinderDef where
  name : String
  fn : Addr → Show

/-! ## barebones.c -/

namespace Barebones

/-- Source `print` of barebones.c:
`s = showable.tc->show(showable.self); puts(s); free(s);` -/
def print (showable : Show) : Exec Unit := fun m =>
  match showable.tc.pointee.show showable.self m with
  | none => none
  | some (s, m1) =>
    match puts s m1 with
    | none => none
    | some (_, m2) => free s m2

/-- Source `strdup_` of barebones.c:
`s = malloc((strlen(x) + 1) * sizeof(*s)); strcpy(s, x); return s;` -/
def strdup_ (x : String) : Exec Addr := fun m =>
  match malloc ((strlen x + 1) * 1) m with
  | none => none
  | some (s, m1) =>
    match strcpy s x m1 with
    | none => none
    | some (_, m2) => some (s, m2)

/-- Source `antioch_show` of barebones.c: the `switch (*x)` with its `default`. -/
def antioch_show (x : Addr) : Exec Addr := fun m =>
  match m.load x with
  | none => none
  | some t =>
    if t = holy then strdup_ "holy" m
    else if t = hand then strdup_ "hand" m
    else if t = grenade then strdup_ "grenade" m
    else strdup_ "breakfast cereal" m

/-- Source `antioch_show__` of barebones.c: the wrapper taking `void*`. -/
def antioch_show__ (self : Addr) : Exec Addr := antioch_show self

/-- The `static ShowTC const tc` declared inside `prep_antioch_show`. -/
def prep_antioch_show.tc : ShowTC := { «show» := antioch_show__ }

/-- Source `prep_antioch_show` of barebones.c: `return (Show){ .tc = &tc, .self = x };` -/
def prep_antioch_show (x : Addr) : Show :=
  { tc := { sym := "prep_antioch_show", pointee := prep_antioch_show.tc }, self := x }

end Barebones

/-! ## barebones-macro.c -/

namespace BarebonesMacro

/-- Source `impl_show(T, Name, show_f)` of barebones-macro.c: defines `Show Name(T* x)`
whose `static ShowTC const tc` holds the converted `show_f`.  (The local `show_` only
makes the compiler check the type of `show_f`.) -/
def impl_show (_T : String) (Name : String) (show_f : Addr → Exec Addr) : BinderDef :=
  { name := Name
    fn := fun x =>
      { tc := { sym := Name, pointee := { «show» := castShow show_f } }, self := x } }

/-- Source `print` of barebones-macro.c. -/
def print (showable : Show) : Exec Unit := fun m =>
  match showable.tc.pointee.show showable.self m with
  | none => none
  | some (s, m1) =>
    match puts s m1 with
    | none => none
    | some (_, m2) => free s m2

/-- Source `strdup_` of barebones-macro.c. -/
def strdup_ (x : String) : Exec Addr := fun m =>
  match malloc ((strlen x + 1) * 1) m with
  | none => none
  | some (s, m1) =>
    match strcpy s x m1 with
    | none => none
    | some (_, m2) => some (s, m2)

/-- Source `antioch_show` of barebones-macro.c. -/
def antioch_show (x : Addr) : Exec Addr := fun m =>
  match m.load x with
  | none => none
  | some t =>
    if t = holy then strdup_ "holy" m
    else if t = hand then strdup_ "hand" m
    else if t = grenade then strdup_ "grenade" m
    else strdup_ "breakfast cereal" m

/-- Source line `impl_show(Antioch, prep_antioch_show, antioch_show)`. -/
def prep_antioch_show : Addr → Show :=
  (impl_show "Antioch" "prep_antioch_show" antioch_show).fn

end BarebonesMacro

/-! ## name-constrained.c -/

namespace NameConstrained

/-- Source `CONCAT_(x, y)`, `x ## y`: pasting two identifiers gives the identifier spelled
by their concatenation. -/
def CONCAT_ (x y : String) : String := x ++ y

/-- Source `CONCAT(x, y)`: expands its arguments, then pastes them. -/
def CONCAT (x y : String) : String := CONCAT_ x y

/-- Source `ImplName(T, TypeclassName)`: `CONCAT(CONCAT(T, _to_), TypeclassName)`. -/
def ImplName (T TypeclassName : String) : String := CONCAT (CONCAT T "_to_") TypeclassName

/-- A call expression `callee(arg)`. -/
structure Call where
  callee : String
  arg : Addr

/-- Source `ap(x, T, TypeclassName)`: expands to `ImplName(T, TypeclassName)(x)`. -/
def ap (x : Addr) (T TypeclassName : String) : Call :=
  { callee := ImplName T TypeclassName, arg := x }

/-- Source `impl_show(T, show_f)` of name-constrained.c: defines
`Show ImplName(T, Show)(T* x)` whose `static ShowTC const tc` holds the converted
`show_f`. -/
def impl_show (T : String) (show_f : Addr → Exec Addr) : BinderDef :=
  { name := ImplName T "Show"
    fn := fun x =>
      { tc := { sym := ImplName T "Show", pointee := { «show» := castShow show_f } },
        self := x } }

/-- Source `print` of name-constrained.c. -/
def print (showable : Show) : Exec Unit := fun m =>
  match showable.tc.pointee.show showable.self m with
  | none => none
  | some (s, m1) =>
    match puts s m1 with
    | none => none
    | some (_, m2) => free s m2

/-- Source `strdup_` of name-constrained.c. -/
def strdup_ (x : String) : Exec Addr := fun m =>
  match malloc ((strlen x + 1) * 1) m with
  | none => none
  | some (s, m1) =>
    match strcpy s x m1 with
    | none => none
    | some (_, m2) => some (s, m2)

/-- Source `antioch_show` of name-constrained.c. -/
def antioch_show (x : Addr) : Exec Addr := fun m =>
  match m.load x with
  | none => none
  | some t =>
    if t = holy then strdup_ "holy" m
    else if t = hand then strdup_ "hand" m
    else if t = grenade then strdup_ "grenade" m
    else strdup_ "breakfast cereal" m

/-- The binders the translation unit defines: the one line
`impl_show(Antioch, antioch_show)`. -/
def binders : List BinderDef := [impl_show "Antioch" antioch_show]

/-- The function the source line `impl_show(Antioch, antioch_show)` defines. -/
def Antioch_to_Show : Addr → Show := (impl_show "Antioch" antioch_show).fn

/-- Resolve a call expression against the binders defined in the translation unit
(`none`: no function of that name, the program does not link). -/
def resolve (c : Call) : Option Show :=
  (binders.find? (fun d => d.name == c.callee)).map (fun d => d.fn c.arg)

/-- Source `main` of name-constrained.c: `print(ap(&(Antioch){ holy }, Antioch, Show))`. -/
def main : Exec Int := fun m =>
  match resolve (ap (m.declare holy).1 "Antioch" "Show") with
  | none => none
  | some h =>
    match print h (m.declare holy).2 with
    | none => none
    | some (_, m1) => some (0, m1)

end NameConstrained

/-! ## barebones-combined.c -/

namespace Combined

/-- Source `print_shen`: `s = shen.showtc->show(shen.self);
enm = shen.enumtc->from_enum(shen.self); printf("%s : %d\n", s, enm); free(s);` -/
def print_shen (shen : ShowEnum) : Exec Unit := fun m =>
  match shen.showtc.pointee.show shen.self m with
  | none => none
  | some (s, m1) =>
    match shen.enumtc.pointee.from_enum shen.self m1 with
    | none => none
    | some (enm, m2) =>
      match printf_s_d s enm m2 with
      | none => none
      | some (_, m3) => free s m3

/-- Source `int_show`: `len = snprintf(NULL, 0, "%d", *x);
res = malloc((len + 1) * sizeof(*res)); snprintf(res, len + 1, "%d", *x); return res;` -/
def int_show (x : Addr) : Exec Addr := fun m =>
  match m.load x with
  | none => none
  | some v =>
    match snprintf_d 0 0 v m with
    | none => none
    | some (len, m1) =>
      match malloc ((len + 1) * 1) m1 with
      | none => none
      | some (res, m2) =>
        match snprintf_d res (len + 1) v m2 with
        | none => none
        | some (_, m3) => some (res, m3)

/-- Source `int_show__`: the wrapper taking `void*`. -/
def int_show__ (self : Addr) : Exec Addr := int_show self

/-- The `static ShowTC const tc` declared inside `int_to_show`. -/
def int_to_show.tc : ShowTC := { «show» := int_show__ }

/-- Source `int_to_show`: `return (Show){ .tc = &tc, .self = x };` -/
def int_to_show (x : Addr) : Show :=
  { tc := { sym := "int_to_show", pointee := int_to_show.tc }, self := x }

/-- Source `int_from_enum`: `return *x;` -/
def int_from_enum (x : Addr) : Exec Int := fun m =>
  match m.load x with
  | none => none
  | some v => some (v, m)

/-- Source `int_from_enum__`: the wrapper taking `void*`. -/
def int_from_enum__ (self : Addr) : Exec Int := int_from_enum self

/-- The `static EnumTC const tc` declared inside `int_to_enum`. -/
def int_to_enum.tc : EnumTC := { from_enum := int_from_enum__ }

/-- Source `int_to_enum`: `return (Enum){ .tc = &tc, .self = x };` -/
def int_to_enum (x : Addr) : Enum :=
  { tc := { sym := "int_to_enum", pointee := int_to_enum.tc }, self := x }

/-- Source `main` of barebones-combined.c: `int x = 42;` then the struct literal
`{ .self = &x, .showtc = int_to_show(&x).tc, .enumtc = int_to_enum(&x).tc }` is passed
to `print_shen`. -/
def main : Exec Int := fun m =>
  match print_shen { self := (m.declare 42).1, showtc := (int_to_show (m.declare 42).1).tc,
                     enumtc := (int_to_enum (m.declare 42).1).tc } (m.declare 42).2 with
  | none => none
  | some (_, m1) => some (0, m1)

end Combined

/-! ## Auxiliary definitions for the statements -/

/-- The text `antioch_show` produces for a tag. -/
def antiochText (t : Int) : String :=
  if t = holy then "holy" else if t = hand then "hand"
  else if t = grenade then "grenade" else "breakfast cereal"

/-- The memory after a `malloc` of `strlen s + 1` bytes filled with the string `s`. -/
def Mem.withString (m : Mem) (s : String) : Mem :=
  { m with heap := (m.fresh, { size := strlen s + 1, str := some s }) :: m.heap,
           mallocs := m.mallocs + 1 }

/-- A memory with one `int` object holding `v` at address `a`, nothing allocated and
nothing written. -/
def memWith (a : Addr) (v : Int) : Mem :=
  { objs := [(a, v)], heap := [], out := "", mallocs := 0, frees := 0 }

/-- A memory with two `int` objects, `v` at address `a` and `w` at address `b`, nothing
allocated and nothing written. -/
def memWith2 (a : Addr) (v : Int) (b : Addr) (w : Int) : Mem :=
  { objs := [(a, v), (b, w)], heap := [], out := "", mallocs := 0, frees := 0 }

/-- A character that may start a C identifier: a letter or the underscore. -/
def isIdentStart (c : Char) : Bool := c.isAlpha || c == '_'

/-- A C identifier: a letter or underscore followed by letters, digits and underscores. -/
def isIdent (s : String) : Bool :=
  match s.data with
  | [] => false
  | c :: cs => isIdentStart c && cs.all (fun d => isIdentStart d || d.isDigit)

/-! ## Lemmas on the memory and the library -/

theorem le_foldr_max (l : List Nat) (a : Nat) (h : a ∈ l) : a ≤ l.foldr max 0 := by
  induction l with
  | nil => simp at h
  | cons b rest ih =>
    rcases List.mem_cons.mp h with rfl | h'
    · exact le_max_left _ _
    · exact le_trans (ih h') (le_max_right _ _)

theorem fresh_ne_zero (m : Mem) : m.fresh ≠ 0 := by
  simp [Mem.fresh]

theorem fresh_not_live (m : Mem) : m.fresh ∉ m.live := by
  intro h
  have := le_foldr_max (m.live ++ m.objs.map Prod.fst) m.fresh (List.mem_append_left _ h)
  simp only [Mem.fresh] at this
  omega

theorem filter_ne_of_not_mem (p : Addr) (h : List (Addr × Block))
    (hp : p ∉ h.map Prod.fst) : h.filter (fun e => e.1 != p) = h := by
  induction h with
  | nil => rfl
  | cons e rest ih =>
    have h1 : e.1 ≠ p := fun heq => hp (by simp [heq])
    have h2 : p ∉ rest.map Prod.fst := fun hm => hp (by simp at hm ⊢; exact Or.inr hm)
    rw [List.filter_cons_of_pos (by simpa using h1), ih h2]

theorem block_withString (m : Mem) (s : String) :
    (m.withString s).block m.fresh = some { size := strlen s + 1, str := some s } := by
  simp [Mem.withString, Mem.block, List.lookup, fresh_ne_zero]

theorem strAt_withString (m : Mem) (s : String) :
    (m.withString s).strAt m.fresh = some s := by
  simp [Mem.strAt, block_withString]

theorem ne_zero_of_strAt (m : Mem) (p : Addr) (s : String) (h : m.strAt p = some s) :
    p ≠ 0 := by
  rintro rfl
  simp [Mem.strAt, Mem.block] at h

theorem free_of_strAt (m : Mem) (p : Addr) (s : String) (h : m.strAt p = some s) :
    free p m = some ((), { m with heap := m.heap.filter (fun e => e.1 != p),
                                  frees := m.frees + 1 }) := by
  have hp := ne_zero_of_strAt m p s h
  unfold free
  rw [if_neg hp]
  cases hb : m.block p with
  | none => simp [Mem.strAt, hb] at h
  | some b => rfl

/-! ## Lemmas on the decimal conversion -/

theorem digitVal_digitChar (d : Nat) (h : d < 10) : digitVal (Nat.digitChar d) = some d := by
  interval_cases d <;> rfl

theorem readDigits_append (l1 l2 : List Char) (acc : Nat) :
    readDigits (l1 ++ l2) acc = (readDigits l1 acc).bind (readDigits l2) := by
  induction l1 generalizing acc with
  | nil => simp [readDigits]
  | cons c cs ih =>
    simp only [List.cons_append, readDigits]
    cases digitVal c with
    | none => rfl
    | some d => exact ih _

theorem readDigits_decDigits (fuel n : Nat) (h : n < fuel) :
    readDigits (decDigits fuel n) 0 = some n := by
  induction fuel generalizing n with
  | zero => omega
  | succ f ih =>
    unfold decDigits
    split_ifs with h10
    · simp [readDigits, digitVal_digitChar n h10]
    · rw [readDigits_append, ih (n / 10) (by omega)]
      simp only [Option.some_bind, readDigits,
        digitVal_digitChar (n % 10) (Nat.mod_lt _ (by norm_num))]
      congr 1
      omega

theorem decDigits_ne_nil (fuel n : Nat) : decDigits (fuel + 1) n ≠ [] := by
  unfold decDigits
  split_ifs <;> simp

theorem decDigits_head (n : Nat) : (decDigits (n + 1) n).head? ≠ some '-' := by
  intro h
  have hr := readDigits_decDigits (n + 1) n (by omega)
  cases hd : decDigits (n + 1) n with
  | nil => simp [hd] at h
  | cons c cs =>
    rw [hd] at h hr
    simp only [List.head?_cons, Option.some.injEq] at h
    subst h
    simp [readDigits, digitVal] at hr

theorem readDec_fmt_d (v : Int) : readDec (fmt_d v) = some v := by
  unfold readDec fmt_d
  by_cases hv : v < 0
  · simp only [hv, if_true, List.head?_cons, List.tail_cons, decDigits_ne_nil, if_false,
      readDigits_decDigits (v.natAbs + 1) v.natAbs (by omega),
      Int.ofNat_natAbs_of_nonpos (le_of_lt hv), neg_neg]
  · simp only [hv, if_false, decDigits_head, decDigits_ne_nil,
      readDigits_decDigits (v.toNat + 1) v.toNat (by omega),
      Int.toNat_of_nonneg (not_lt.mp hv)]

/-! ## Lemmas on the programs -/

theorem print_named_eq : NameConstrained.print = Barebones.print := rfl

theorem strdup_eq (x : String) (m : Mem) :
    Barebones.strdup_ x m = some (m.fresh, m.withString x) := by
  simp [Barebones.strdup_, malloc, strcpy, Mem.block, List.lookup, setBlock, Mem.withString,
    fresh_ne_zero]

theorem antioch_show_eq (x : Addr) (m : Mem) (t : Int) (h : m.load x = some t) :
    Barebones.antioch_show x m = some (m.fresh, m.withString (antiochText t)) := by
  unfold Barebones.antioch_show antiochText
  rw [h]
  simp only [strdup_eq]
  split_ifs <;> rfl

theorem int_show_eq (x : Addr) (m : Mem) (v : Int) (h : m.load x = some v) :
    Combined.int_show x m = some (m.fresh, m.withString (fmt_d v)) := by
  have htake : String.mk ((fmt_d v).data.take ((fmt_d v).length + 1 - 1)) = fmt_d v := by
    have : (fmt_d v).length = (fmt_d v).data.length := rfl
    rw [Nat.add_sub_cancel, this, List.take_length]
  unfold Combined.int_show
  rw [h]
  simp only [snprintf_d, if_true, malloc, Mem.block, fresh_ne_zero, if_false, List.lookup,
    beq_self_eq_true, Nat.mul_one, Nat.add_one_ne_zero, le_refl, setBlock, htake,
    Mem.withString, strlen]

theorem print_of_show (h : Show) (m m1 : Mem) (p : Addr) (s : String)
    (hshow : h.tc.pointee.show h.self m = some (p, m1)) (hstr : m1.strAt p = some s) :
    Barebones.print h m = some ((), { m1 with out := m1.out ++ s ++ "\n",
                                              heap := m1.heap.filter (fun e => e.1 != p),
                                              frees := m1.frees + 1 }) := by
  unfold Barebones.print
  rw [hshow]
  simp only [puts, hstr]
  exact free_of_strAt { m1 with out := m1.out ++ s ++ "\n" } p s hstr

theorem print_shen_of_show (shen : ShowEnum) (m m1 m2 : Mem) (p : Addr) (e : Int) (s : String)
    (hshow : shen.showtc.pointee.show shen.self m = some (p, m1))
    (henum : shen.enumtc.pointee.from_enum shen.self m1 = some (e, m2))
    (hstr : m2.strAt p = some s) :
    Combined.print_shen shen m =
      some ((), { m2 with out := m2.out ++ s ++ " : " ++ fmt_d e ++ "\n",
                          heap := m2.heap.filter (fun e => e.1 != p),
                          frees := m2.frees + 1 }) := by
  unfold Combined.print_shen
  rw [hshow]
  simp only [henum, printf_s_d, hstr]
  exact free_of_strAt { m2 with out := m2.out ++ s ++ " : " ++ fmt_d e ++ "\n" } p s hstr

theorem heap_withString_filter (m : Mem) (s : String) :
    (m.withString s).heap.filter (fun e => e.1 != m.fresh) = m.heap := by
  simp [Mem.withString, List.filter, filter_ne_of_not_mem m.fresh m.heap (fresh_not_live m)]

theorem print_shen_int (m : Mem) (x : Addr) (v : Int) (h : m.load x = some v)
    (shen : ShowEnum) (hself : shen.self = x)
    (hs : shen.showtc.pointee.show = Combined.int_show__)
    (he : shen.enumtc.pointee.from_enum = Combined.int_from_enum__) :
    Combined.print_shen shen m =
      some ((), { m with out := m.out ++ fmt_d v ++ " : " ++ fmt_d v ++ "\n",
                         mallocs := m.mallocs + 1, frees := m.frees + 1 }) := by
  have hshow : shen.showtc.pointee.show shen.self m
      = some (m.fresh, m.withString (fmt_d v)) := by
    rw [hs, hself]; exact int_show_eq x m v h
  have henum : shen.enumtc.pointee.from_enum shen.self (m.withString (fmt_d v))
      = some (v, m.withString (fmt_d v)) := by
    rw [he, hself]
    have hl : (m.withString (fmt_d v)).load x = some v := h
    simp [Combined.int_from_enum__, Combined.int_from_enum, hl]
  rw [print_shen_of_show shen m _ _ m.fresh v (fmt_d v) hshow henum (strAt_withString m _),
    heap_withString_filter]
  rfl

theorem print_fresh (hd : Show) (m : Mem) (s : String)
    (hshow : hd.tc.pointee.show hd.self m = some (m.fresh, m.withString s)) :
    Barebones.print hd m =
      some ((), { m with out := m.out ++ s ++ "\n",
                         mallocs := m.mallocs + 1, frees := m.frees + 1 }) := by
  rw [print_of_show hd m _ m.fresh s hshow (strAt_withString m _), heap_withString_filter]
  rfl

theorem fresh_withString_ne (m : Mem) (s : String) : (m.withString s).fresh ≠ m.fresh := by
  intro h
  have h1 := fresh_not_live (m.withString s)
  rw [h] at h1
  exact h1 (by simp [Mem.live, Mem.withString])

theorem implName_data (T C : String) :
    (NameConstrained.ImplName T C).data = T.data ++ ("_to_".data ++ C.data) := by
  simp [NameConstrained.ImplName, NameConstrained.CONCAT, NameConstrained.CONCAT_,
    String.data_append]

theorem append_cons_inj_of_not_mem {a : Char} :
    ∀ (l1 l2 r1 r2 : List Char), a ∉ l1 → a ∉ l2 → l1 ++ a :: r1 = l2 ++ a :: r2 →
      l1 = l2 ∧ r1 = r2
  | [], [], _, _, _, _, h => ⟨rfl, by simpa using h⟩
  | [], b :: l2, _, _, _, h2, h => by
    simp only [List.nil_append, List.cons_append, List.cons.injEq] at h
    exact absurd (show a ∈ b :: l2 by rw [← h.1]; simp) h2
  | b :: l1, [], _, _, h1, _, h => by
    simp only [List.nil_append, List.cons_append, List.cons.injEq] at h
    exact absurd (show a ∈ b :: l1 by rw [h.1]; simp) h1
  | b :: l1, c :: l2, r1, r2, h1, h2, h => by
    simp only [List.cons_append, List.cons.injEq] at h
    have ih := append_cons_inj_of_not_mem l1 l2 r1 r2
      (fun hm => h1 (List.mem_cons_of_mem _ hm)) (fun hm => h2 (List.mem_cons_of_mem _ hm)) h.2
    exact ⟨by rw [h.1, ih.1], ih.2⟩

theorem dedup_map_const {α : Type} (c : String) (xs : List α) (hne : xs ≠ []) :
    (xs.map (fun _ => c)).dedup = [c] := by
  induction xs with
  | nil => exact absurd rfl hne
  | cons x rest ih =>
    by_cases hr : rest = []
    · subst hr; rfl
    · have hmem : c ∈ rest.map (fun _ => c) := by
        cases rest with
        | nil => exact absurd rfl hr
        | cons y ys => simp
      rw [List.map_cons, List.dedup_cons_of_mem hmem, ih hr]

/-! ## Claims -/

/-- Claim C1. Dispatch through a handle agrees with the direct call: in every memory and
for every object address `x`, the `show` slot of `prep_antioch_show(&x)` applied to the
handle's `self` gives the result of `antioch_show(&x)`, the `show` slot of
`int_to_show(&x)` gives the result of `int_show(&x)`, and the `from_enum` slot of
`int_to_enum(&x)` gives the result of `int_from_enum(&x)`.  When `x` holds the value `v`
(any integer, also a tag outside holy/hand/grenade) these results are defined: the text of
the tag, the decimal rendering of `v`, and `v` itself. -/
theorem dispatch_agrees_with_direct_call (m : Mem) (x : Addr) (v : Int) :
    ((Barebones.prep_antioch_show x).tc.pointee.show (Barebones.prep_antioch_show x).self m
        = Barebones.antioch_show x m ∧
      (Combined.int_to_show x).tc.pointee.show x m = Combined.int_show x m ∧
      (Combined.int_to_enum x).tc.pointee.from_enum x m = Combined.int_from_enum x m) ∧
    (m.load x = some v →
      (∃ p m1, (Barebones.prep_antioch_show x).tc.pointee.show
            (Barebones.prep_antioch_show x).self m = some (p, m1) ∧
          m1.strAt p = some (antiochText v)) ∧
      (∃ p m1, (Combined.int_to_show x).tc.pointee.show x m = some (p, m1) ∧
          m1.strAt p = some (fmt_d v)) ∧
      (Combined.int_to_enum x).tc.pointee.from_enum x m = some (v, m)) := by
  refine ⟨⟨rfl, rfl, rfl⟩, fun h => ⟨⟨m.fresh, _, antioch_show_eq x m v h, strAt_withString m _⟩,
    ⟨m.fresh, _, int_show_eq x m v h, strAt_withString m _⟩, ?_⟩⟩
  show Combined.int_from_enum x m = some (v, m)
  simp [Combined.int_from_enum, h]

/-- Witness for claim C1: the object at address 5 holds the out-of-range tag 17. -/
theorem dispatch_agrees_with_direct_call_witness :
    (memWith 5 17).load 5 = some 17 ∧
    (∃ p m1, (Barebones.prep_antioch_show 5).tc.pointee.show
          (Barebones.prep_antioch_show 5).self (memWith 5 17) = some (p, m1) ∧
        m1.strAt p = some "breakfast cereal") ∧
    (∃ p m1, (Combined.int_to_show 5).tc.pointee.show 5 (memWith 5 17) = some (p, m1) ∧
        m1.strAt p = some "17") ∧
    (Combined.int_to_enum 5).tc.pointee.from_enum 5 (memWith 5 17)
      = some (17, memWith 5 17) :=
  ⟨rfl, (dispatch_agrees_with_direct_call (memWith 5 17) 5 17).2 rfl⟩





/-- Claim C2. `antioch_show` is total on every stored tag and maps tags exactly: whenever
`x` points to an `Antioch` object holding the integer `t`, the call returns a pointer to a
live string which is "holy" for `t = 0`, "hand" for `t = 1`, "grenade" for `t = 2` and the
sentinel "breakfast cereal" for every other `t`; the string is never empty. -/
theorem antioch_show_total_exact (m : Mem) (x : Addr) (t : Int) (h : m.load x = some t) :
    ∃ p m1 s, Barebones.antioch_show x m = some (p, m1) ∧ m1.strAt p = some s ∧
      (t = 0 → s = "holy") ∧ (t = 1 → s = "hand") ∧ (t = 2 → s = "grenade") ∧
      (t ≠ 0 → t ≠ 1 → t ≠ 2 → s = "breakfast cereal") ∧ 0 < strlen s := by
  refine ⟨m.fresh, m.withString (antiochText t), antiochText t,
    antioch_show_eq x m t h, strAt_withString m _, ?_, ?_, ?_, ?_, ?_⟩
  · rintro rfl; rfl
  · rintro rfl; rfl
  · rintro rfl; rfl
  · intro h0 h1 h2; simp [antiochText, holy, hand, grenade, h0, h1, h2]
  · unfold antiochText strlen; split_ifs <;> decide

/-- Witness for claim C2: the out-of-range tag 3 stored at address 5. -/
theorem antioch_show_total_exact_witness :
    (memWith 5 3).load 5 = some 3 ∧
    ∃ p m1 s, Barebones.antioch_show 5 (memWith 5 3) = some (p, m1) ∧ m1.strAt p = some s ∧
      ((3 : Int) = 0 → s = "holy") ∧ ((3 : Int) = 1 → s = "hand") ∧
      ((3 : Int) = 2 → s = "grenade") ∧
      ((3 : Int) ≠ 0 → (3 : Int) ≠ 1 → (3 : Int) ≠ 2 → s = "breakfast cereal") ∧
      0 < strlen s :=
  ⟨rfl, antioch_show_total_exact (memWith 5 3) 5 3 rfl⟩

/-- Claim C3. Table identity and caching: each binder (`prep_antioch_show` of barebones.c
and of barebones-macro.c, `Antioch_to_Show`, `int_to_show`, `int_to_enum`) returns the same
table pointer for any two objects, and any non-empty series of calls of one binder
involves exactly one table (one symbol of a static table). -/
theorem table_identity (x1 x2 : Addr) (xs : List Addr) (hne : xs ≠ []) :
    ((Barebones.prep_antioch_show x1).tc = (Barebones.prep_antioch_show x2).tc ∧
      (BarebonesMacro.prep_antioch_show x1).tc = (BarebonesMacro.prep_antioch_show x2).tc ∧
      (NameConstrained.Antioch_to_Show x1).tc = (NameConstrained.Antioch_to_Show x2).tc ∧
      (Combined.int_to_show x1).tc = (Combined.int_to_show x2).tc ∧
      (Combined.int_to_enum x1).tc = (Combined.int_to_enum x2).tc) ∧
    ((xs.map (fun x => (Barebones.prep_antioch_show x).tc.sym)).dedup.length = 1 ∧
      (xs.map (fun x => (BarebonesMacro.prep_antioch_show x).tc.sym)).dedup.length = 1 ∧
      (xs.map (fun x => (NameConstrained.Antioch_to_Show x).tc.sym)).dedup.length = 1 ∧
      (xs.map (fun x => (Combined.int_to_show x).tc.sym)).dedup.length = 1 ∧
      (xs.map (fun x => (Combined.int_to_enum x).tc.sym)).dedup.length = 1) := by
  refine ⟨⟨rfl, rfl, rfl, rfl, rfl⟩, ?_, ?_, ?_, ?_, ?_⟩
  · exact congrArg List.length (dedup_map_const "prep_antioch_show" xs hne)
  · exact congrArg List.length (dedup_map_const "prep_antioch_show" xs hne)
  · exact congrArg List.length
      (dedup_map_const (NameConstrained.ImplName "Antioch" "Show") xs hne)
  · exact congrArg List.length (dedup_map_const "int_to_show" xs hne)
  · exact congrArg List.length (dedup_map_const "int_to_enum" xs hne)

/-- Witness for claim C3: three calls of each binder, on the objects at 1, 2 and 3. -/
theorem table_identity_witness :
    ([1, 2, 3] : List Addr) ≠ [] ∧
    ((Barebones.prep_antioch_show 1).tc = (Barebones.prep_antioch_show 2).tc ∧
      (BarebonesMacro.prep_antioch_show 1).tc = (BarebonesMacro.prep_antioch_show 2).tc ∧
      (NameConstrained.Antioch_to_Show 1).tc = (NameConstrained.Antioch_to_Show 2).tc ∧
      (Combined.int_to_show 1).tc = (Combined.int_to_show 2).tc ∧
      (Combined.int_to_enum 1).tc = (Combined.int_to_enum 2).tc) ∧
    ((([1, 2, 3] : List Addr).map
        (fun x => (Barebones.prep_antioch_show x).tc.sym)).dedup.length = 1 ∧
      (([1, 2, 3] : List Addr).map
        (fun x => (BarebonesMacro.prep_antioch_show x).tc.sym)).dedup.length = 1 ∧
      (([1, 2, 3] : List Addr).map
        (fun x => (NameConstrained.Antioch_to_Show x).tc.sym)).dedup.length = 1 ∧
      (([1, 2, 3] : List Addr).map
        (fun x => (Combined.int_to_show x).tc.sym)).dedup.length = 1 ∧
      (([1, 2, 3] : List Addr).map
        (fun x => (Combined.int_to_enum x).tc.sym)).dedup.length = 1) :=
  ⟨by decide, table_identity 1 2 [1, 2, 3] (by decide)⟩

/-- Claim C5. The combined-handle consumer reports both capabilities of the one shared
object: when `x` holds the int `v`, `print_shen` on the handle
`{ self = &x, showtc = int_to_show(&x).tc, enumtc = int_to_enum(&x).tc }` succeeds and
appends exactly the line `<d> : <d>` and a newline, `<d>` being the `%d` rendering of `v` on
both sides; that text read back as a decimal is `v`; and `main` (where `x` is 42) appends
exactly `42 : 42` and a newline and returns 0. -/
theorem print_shen_reports_both (m : Mem) (x : Addr) (v : Int) (h : m.load x = some v) :
    (∃ m1, Combined.print_shen { self := x, showtc := (Combined.int_to_show x).tc,
                                 enumtc := (Combined.int_to_enum x).tc } m = some ((), m1) ∧
      m1.out = m.out ++ fmt_d v ++ " : " ++ fmt_d v ++ "\n") ∧
    readDec (fmt_d v) = some v ∧
    (∃ m1, Combined.main m = some (0, m1) ∧ m1.out = m.out ++ "42 : 42\n") := by
  refine ⟨⟨_, print_shen_int m x v h _ rfl rfl rfl, rfl⟩, readDec_fmt_d v, ?_⟩
  have hl : (m.declare 42).2.load (m.declare 42).1 = some 42 := by
    simp [Mem.declare, Mem.load, List.lookup]
  have hmain : Combined.main m = some (0,
      { (m.declare 42).2 with out := m.out ++ fmt_d 42 ++ " : " ++ fmt_d 42 ++ "\n",
                              mallocs := m.mallocs + 1, frees := m.frees + 1 }) := by
    have hp := print_shen_int (m.declare 42).2 (m.declare 42).1 42 hl
      { self := (m.declare 42).1, showtc := (Combined.int_to_show (m.declare 42).1).tc,
        enumtc := (Combined.int_to_enum (m.declare 42).1).tc } rfl rfl rfl
    simp only [Combined.main, hp]
    rfl
  refine ⟨_, hmain, ?_⟩
  have h42 : fmt_d 42 = "42" := by decide
  rw [h42]
  show m.out ++ "42" ++ " : " ++ "42" ++ "\n" = m.out ++ "42 : 42\n"
  simp only [String.append_assoc]
  rfl

/-- Witness for claim C5: the object at address 5 holds -7. -/
theorem print_shen_reports_both_witness :
    (memWith 5 (-7)).load 5 = some (-7) ∧
    (∃ m1, Combined.print_shen { self := 5, showtc := (Combined.int_to_show 5).tc,
                                 enumtc := (Combined.int_to_enum 5).tc } (memWith 5 (-7))
        = some ((), m1) ∧
      m1.out = (memWith 5 (-7)).out ++ fmt_d (-7) ++ " : " ++ fmt_d (-7) ++ "\n") ∧
    readDec (fmt_d (-7)) = some (-7) ∧
    (∃ m1, Combined.main (memWith 5 (-7)) = some (0, m1) ∧
      m1.out = (memWith 5 (-7)).out ++ "42 : 42\n") :=
  ⟨rfl, print_shen_reports_both (memWith 5 (-7)) 5 (-7) rfl⟩

/-- Claim C6. The generic consumer dispatches purely through the table: for any handle `h`
(any table, any data pointer) whose `show` slot, called on `h.self`, returns a live string
`s`, `print(h)` (of barebones.c, barebones-macro.c and name-constrained.c) succeeds and
appends to the output exactly `s` and a newline, so that the output is the old output,
`s` and a newline when `show` itself wrote nothing; the result of `print` is a function of
the result of the slot call alone; and a second handle whose slot yields the same string
gives the same output. -/
theorem print_dispatches_through_table (h h2 : Show) (m m1 m1' : Mem) (p p2 : Addr)
    (s : String)
    (hshow : h.tc.pointee.show h.self m = some (p, m1)) (hstr : m1.strAt p = some s)
    (hshow2 : h2.tc.pointee.show h2.self m = some (p2, m1')) (hstr2 : m1'.strAt p2 = some s)
    (hout : m1'.out = m1.out) :
    (∃ m2, Barebones.print h m = some ((), m2) ∧ BarebonesMacro.print h m = some ((), m2) ∧
      NameConstrained.print h m = some ((), m2) ∧ m2.out = m1.out ++ s ++ "\n" ∧
      (m1.out = m.out → m2.out = m.out ++ s ++ "\n")) ∧
    (∀ h3 : Show, h3.tc.pointee.show h3.self m = h.tc.pointee.show h.self m →
      Barebones.print h3 m = Barebones.print h m) ∧
    (∃ m2 m2', Barebones.print h m = some ((), m2) ∧ Barebones.print h2 m = some ((), m2') ∧
      m2'.out = m2.out) := by
  refine ⟨⟨_, print_of_show h m m1 p s hshow hstr, print_of_show h m m1 p s hshow hstr,
    print_of_show h m m1 p s hshow hstr, rfl, fun ho => ?_⟩, fun h3 h3eq => ?_,
    ⟨_, _, print_of_show h m m1 p s hshow hstr, print_of_show h2 m m1' p2 s hshow2 hstr2, ?_⟩⟩
  · show m1.out ++ s ++ "\n" = m.out ++ s ++ "\n"
    rw [ho]
  · simp only [Barebones.print, h3eq]
  · show m1'.out ++ s ++ "\n" = m1.out ++ s ++ "\n"
    rw [hout]

/-- Witness for claim C6: the handles of barebones.c and of name-constrained.c for the
object at address 5 holding `grenade`. -/
theorem print_dispatches_through_table_witness :
    (∃ m2, Barebones.print (Barebones.prep_antioch_show 5) (memWith 5 2) = some ((), m2) ∧
      BarebonesMacro.print (Barebones.prep_antioch_show 5) (memWith 5 2) = some ((), m2) ∧
      NameConstrained.print (Barebones.prep_antioch_show 5) (memWith 5 2) = some ((), m2) ∧
      m2.out = ((memWith 5 2).withString "grenade").out ++ "grenade" ++ "\n" ∧
      (((memWith 5 2).withString "grenade").out = (memWith 5 2).out →
        m2.out = (memWith 5 2).out ++ "grenade" ++ "\n")) ∧
    (∀ h3 : Show, h3.tc.pointee.show h3.self (memWith 5 2)
        = (Barebones.prep_antioch_show 5).tc.pointee.show
            (Barebones.prep_antioch_show 5).self (memWith 5 2) →
      Barebones.print h3 (memWith 5 2)
        = Barebones.print (Barebones.prep_antioch_show 5) (memWith 5 2)) ∧
    (∃ m2 m2', Barebones.print (Barebones.prep_antioch_show 5) (memWith 5 2) = some ((), m2) ∧
      Barebones.print (NameConstrained.Antioch_to_Show 5) (memWith 5 2) = some ((), m2') ∧
      m2'.out = m2.out) :=
  print_dispatches_through_table (Barebones.prep_antioch_show 5)
    (NameConstrained.Antioch_to_Show 5) (memWith 5 2) ((memWith 5 2).withString "grenade")
    ((memWith 5 2).withString "grenade") 6 6 "grenade" rfl rfl rfl rfl rfl

/-- Counterexample to claim C4: with two distinct objects, 42 at address 1 and 7 at
address 2, the combined handle whose `self` is the first object and whose two tables are
taken from the handles bound to the second object exists, and `print_shen` accepts it and
prints the first object. -/
theorem mismatched_combination_accepted :
    (1 : Addr) ≠ 2 ∧
    ∃ shen : ShowEnum, shen.self = 1 ∧ shen.showtc = (Combined.int_to_show 2).tc ∧
      shen.enumtc = (Combined.int_to_enum 2).tc ∧
      ∃ m1, Combined.print_shen shen (memWith2 1 42 2 7) = some ((), m1) ∧
        m1.out = "42 : 42\n" :=
  ⟨by decide, { self := 1, showtc := (Combined.int_to_show 2).tc,
                enumtc := (Combined.int_to_enum 2).tc }, rfl, rfl, rfl, _, rfl, rfl⟩

/-- Claim C4, amended. The combined handle is a plain struct literal and nothing checks
it: for all objects `x`, `y`, `z` the handle with `self = &x`, `showtc` taken from
`int_to_show(&y)` and `enumtc` taken from `int_to_enum(&z)` is the very handle built from
the two handles of `x`, and when `x` holds `v`, `print_shen` on it succeeds and reports the
object at `self` only. -/
theorem combination_is_unchecked (x y z : Addr) (m : Mem) (v : Int) :
    ({ self := x, showtc := (Combined.int_to_show y).tc,
       enumtc := (Combined.int_to_enum z).tc } : ShowEnum)
      = { self := x, showtc := (Combined.int_to_show x).tc,
          enumtc := (Combined.int_to_enum x).tc } ∧
    (m.load x = some v →
      ∃ m1, Combined.print_shen { self := x, showtc := (Combined.int_to_show y).tc,
                                  enumtc := (Combined.int_to_enum z).tc } m = some ((), m1) ∧
        m1.out = m.out ++ fmt_d v ++ " : " ++ fmt_d v ++ "\n") :=
  ⟨rfl, fun h => ⟨_, print_shen_int m x v h _ rfl rfl rfl, rfl⟩⟩

/-- Witness for the amended claim C4: `self` is the object at 1 (holding 42), the tables
come from the handles of the object at 2. -/
theorem combination_is_unchecked_witness :
    (memWith2 1 42 2 7).load 1 = some 42 ∧
    ∃ m1, Combined.print_shen { self := 1, showtc := (Combined.int_to_show 2).tc,
                                enumtc := (Combined.int_to_enum 2).tc } (memWith2 1 42 2 7)
        = some ((), m1) ∧
      m1.out = (memWith2 1 42 2 7).out ++ fmt_d 42 ++ " : " ++ fmt_d 42 ++ "\n" :=
  ⟨rfl, (combination_is_unchecked 1 2 2 (memWith2 1 42 2 7) 42).2 rfl⟩

/-- Claim C7. Binder names do not collide in the two cases the convention promises: one
type with two different capability names gives two different binder names, one capability
with two different type names gives two different binder names; and `ap(x, T, Show)`
expands to a call, with argument `x`, of exactly the identifier `impl_show(T, f)` defines,
which for `Antioch` is `Antioch_to_Show`, the binder the call in `main` resolves to, so
that `main` prints `holy` and a newline and returns 0. -/
theorem binder_names_do_not_collide (T C T1 T2 C1 C2 : String) (x : Addr)
    (f : Addr → Exec Addr) (m : Mem) :
    (C1 ≠ C2 → NameConstrained.ImplName T C1 ≠ NameConstrained.ImplName T C2) ∧
    (T1 ≠ T2 → NameConstrained.ImplName T1 C ≠ NameConstrained.ImplName T2 C) ∧
    (NameConstrained.ap x T "Show").callee = (NameConstrained.impl_show T f).name ∧
    (NameConstrained.ap x T "Show").arg = x ∧
    (NameConstrained.ap x "Antioch" "Show").callee = "Antioch_to_Show" ∧
    NameConstrained.resolve (NameConstrained.ap x "Antioch" "Show")
      = some (NameConstrained.Antioch_to_Show x) ∧
    ∃ m1, NameConstrained.main m = some (0, m1) ∧ m1.out = m.out ++ "holy\n" := by
  have hname : NameConstrained.ImplName "Antioch" "Show" = "Antioch_to_Show" := by decide
  have hres : ∀ a : Addr, NameConstrained.resolve (NameConstrained.ap a "Antioch" "Show")
      = some (NameConstrained.Antioch_to_Show a) := by
    intro a
    have hn : (NameConstrained.impl_show "Antioch" NameConstrained.antioch_show).name
        = (NameConstrained.ap a "Antioch" "Show").callee := rfl
    simp only [NameConstrained.resolve, NameConstrained.binders, List.find?, hn,
      beq_self_eq_true, Option.map_some']
    rfl
  refine ⟨fun hne heq => hne ?_, fun hne heq => hne ?_, rfl, rfl, hname, hres x, ?_⟩
  · have hd := congrArg String.data heq
    rw [implName_data, implName_data] at hd
    exact String.ext (List.append_cancel_left (List.append_cancel_left hd))
  · have hd := congrArg String.data heq
    rw [implName_data, implName_data] at hd
    exact String.ext (List.append_cancel_right hd)
  · have hl : (m.declare holy).2.load (m.declare holy).1 = some holy := by
      simp [Mem.declare, Mem.load, List.lookup]
    have hp := print_fresh (NameConstrained.Antioch_to_Show (m.declare holy).1)
      (m.declare holy).2 _ (antioch_show_eq _ _ holy hl)
    have hmain : NameConstrained.main m = some (0,
        { (m.declare holy).2 with out := m.out ++ "holy" ++ "\n",
                                  mallocs := m.mallocs + 1, frees := m.frees + 1 }) := by
      simp only [NameConstrained.main, hres, print_named_eq, hp]
      rfl
    refine ⟨_, hmain, ?_⟩
    show m.out ++ "holy" ++ "\n" = m.out ++ "holy\n"
    simp only [String.append_assoc]
    rfl

/-- Witness for claim C7: `Antioch` with `Show` and `Enum`, `Show` for `Antioch` and
`int`. -/
theorem binder_names_do_not_collide_witness :
    NameConstrained.ImplName "Antioch" "Show" ≠ NameConstrained.ImplName "Antioch" "Enum" ∧
    NameConstrained.ImplName "Antioch" "Show" ≠ NameConstrained.ImplName "int" "Show" :=
  ⟨(binder_names_do_not_collide "Antioch" "Show" "Antioch" "int" "Show" "Enum" 0
      NameConstrained.antioch_show (memWith 5 0)).1 (by decide),
    (binder_names_do_not_collide "Antioch" "Show" "Antioch" "int" "Show" "Enum" 0
      NameConstrained.antioch_show (memWith 5 0)).2.1 (by decide)⟩

/-- Counterexample to claim C9: the identifiers `a_to_b`, `c` and `a`, `b_to_c` are two
different (type, capability) pairs with the same binder name, `a_to_b_to_c`. -/
theorem binder_name_is_ambiguous :
    isIdent "a_to_b" = true ∧ isIdent "c" = true ∧ isIdent "a" = true ∧
    isIdent "b_to_c" = true ∧
    NameConstrained.ImplName "a_to_b" "c" = NameConstrained.ImplName "a" "b_to_c" ∧
    ¬ ("a_to_b" = "a" ∧ "c" = "b_to_c") := by
  decide

/-- Claim C9, amended. A binder name determines its (type, capability) pair when the two
type names have the same length, or neither type name contains an underscore, or neither
capability name contains an underscore: under one of these conditions,
`ImplName(T, C) = ImplName(T', C')` gives `T = T'` and `C = C'`. -/
theorem binder_name_determines_pair (T C T' C' : String)
    (hside : T.length = T'.length ∨ ('_' ∉ T.data ∧ '_' ∉ T'.data) ∨
      ('_' ∉ C.data ∧ '_' ∉ C'.data))
    (heq : NameConstrained.ImplName T C = NameConstrained.ImplName T' C') :
    T = T' ∧ C = C' := by
  have hd := congrArg String.data heq
  rw [implName_data, implName_data] at hd
  rcases hside with hlen | ⟨h1, h2⟩ | ⟨h1, h2⟩
  · have hl : T.data.length = T'.data.length := hlen
    obtain ⟨ha, hb⟩ := List.append_inj hd hl
    exact ⟨String.ext ha, String.ext (List.append_cancel_left hb)⟩
  · have hd2 : T.data ++ '_' :: ('t' :: 'o' :: '_' :: C.data)
        = T'.data ++ '_' :: ('t' :: 'o' :: '_' :: C'.data) := hd
    obtain ⟨ha, hb⟩ := append_cons_inj_of_not_mem _ _ _ _ h1 h2 hd2
    exact ⟨String.ext ha, String.ext (by simpa using hb)⟩
  · have hr := congrArg List.reverse hd
    have hd2 : C.data.reverse ++ '_' :: ('o' :: 't' :: '_' :: T.data.reverse)
        = C'.data.reverse ++ '_' :: ('o' :: 't' :: '_' :: T'.data.reverse) := by
      have e : ∀ A B : String, (A.data ++ ("_to_".data ++ B.data)).reverse
          = B.data.reverse ++ '_' :: ('o' :: 't' :: '_' :: A.data.reverse) := by
        intro A B
        show (A.data ++ ('_' :: 't' :: 'o' :: '_' :: B.data)).reverse = _
        simp
      rw [e, e] at hr
      exact hr
    obtain ⟨ha, hb⟩ := append_cons_inj_of_not_mem _ _ _ _
      (by simpa using h1) (by simpa using h2) hd2
    have hT : T.data.reverse = T'.data.reverse := by simpa using hb
    exact ⟨String.ext (List.reverse_injective hT), String.ext (List.reverse_injective ha)⟩

/-- Witness for the amended claim C9: `Antioch` and `Show`, which contain no
underscore. -/
theorem binder_name_determines_pair_witness :
    ('_' ∉ "Antioch".data ∧ '_' ∉ "Antioch".data) ∧
    NameConstrained.ImplName "Antioch" "Show" = NameConstrained.ImplName "Antioch" "Show" ∧
    ("Antioch" : String) = "Antioch" ∧ ("Show" : String) = "Show" :=
  ⟨by decide, rfl, binder_name_determines_pair "Antioch" "Show" "Antioch" "Show"
    (Or.inr (Or.inl (by decide))) rfl⟩

/-- Claim C8. Owned results are released exactly once.  When `x` holds `v`:
`antioch_show` and `int_show` each return a non-null pointer that was not live before, to
a new live block holding a string, after one `malloc` and no `free`, and a second call
returns a different pointer; `print` on the handle of each Antioch binder and `print_shen`
on the combined handle succeed with one `malloc` and one `free` more than before and the
live blocks exactly as before the call.  For an arbitrary handle whose `show` slot returns
a live string at `p`, `print` and `print_shen` perform exactly one `free` and no `malloc`
after the slot call, and the block freed is the one at `p`. -/
theorem owned_results_released_once (m : Mem) (x : Addr) (v : Int) (h : m.load x = some v) :
    (∃ p m1 s, Barebones.antioch_show x m = some (p, m1) ∧ p ≠ 0 ∧ p ∉ m.live ∧
      m1.live = p :: m.live ∧ m1.strAt p = some s ∧ m1.mallocs = m.mallocs + 1 ∧
      m1.frees = m.frees ∧
      ∃ p2 m2, Barebones.antioch_show x m1 = some (p2, m2) ∧ p2 ≠ p) ∧
    (∃ p m1 s, Combined.int_show x m = some (p, m1) ∧ p ≠ 0 ∧ p ∉ m.live ∧
      m1.live = p :: m.live ∧ m1.strAt p = some s ∧ m1.mallocs = m.mallocs + 1 ∧
      m1.frees = m.frees ∧
      ∃ p2 m2, Combined.int_show x m1 = some (p2, m2) ∧ p2 ≠ p) ∧
    (∃ m2, Barebones.print (Barebones.prep_antioch_show x) m = some ((), m2) ∧
      m2.heap = m.heap ∧ m2.live.length = m.live.length ∧
      m2.mallocs = m.mallocs + 1 ∧ m2.frees = m.frees + 1) ∧
    (∃ m2, BarebonesMacro.print (BarebonesMacro.prep_antioch_show x) m = some ((), m2) ∧
      m2.heap = m.heap ∧ m2.live.length = m.live.length ∧
      m2.mallocs = m.mallocs + 1 ∧ m2.frees = m.frees + 1) ∧
    (∃ m2, NameConstrained.print (NameConstrained.Antioch_to_Show x) m = some ((), m2) ∧
      m2.heap = m.heap ∧ m2.live.length = m.live.length ∧
      m2.mallocs = m.mallocs + 1 ∧ m2.frees = m.frees + 1) ∧
    (∃ m2, Combined.print_shen { self := x, showtc := (Combined.int_to_show x).tc,
                                 enumtc := (Combined.int_to_enum x).tc } m = some ((), m2) ∧
      m2.heap = m.heap ∧ m2.live.length = m.live.length ∧
      m2.mallocs = m.mallocs + 1 ∧ m2.frees = m.frees + 1) ∧
    (∀ (hd : Show) (p : Addr) (m1 : Mem) (s : String),
      hd.tc.pointee.show hd.self m = some (p, m1) → m1.strAt p = some s →
      ∃ m2, Barebones.print hd m = some ((), m2) ∧ m2.frees = m1.frees + 1 ∧
        m2.mallocs = m1.mallocs ∧ m2.heap = m1.heap.filter (fun e => e.1 != p)) ∧
    (∀ (shen : ShowEnum) (p : Addr) (m1 m2 : Mem) (e : Int) (s : String),
      shen.showtc.pointee.show shen.self m = some (p, m1) →
      shen.enumtc.pointee.from_enum shen.self m1 = some (e, m2) → m2.strAt p = some s →
      ∃ m3, Combined.print_shen shen m = some ((), m3) ∧ m3.frees = m2.frees + 1 ∧
        m3.mallocs = m2.mallocs ∧ m3.heap = m2.heap.filter (fun e => e.1 != p)) := by
  have hl : ∀ s : String, (m.withString s).load x = some v := fun _ => h
  have hshowA : Barebones.antioch_show x m = some (m.fresh, m.withString (antiochText v)) :=
    antioch_show_eq x m v h
  refine ⟨⟨m.fresh, _, antiochText v, hshowA, fresh_ne_zero m, fresh_not_live m, rfl,
      strAt_withString m _, rfl, rfl, _, _, antioch_show_eq x _ v (hl _),
      fresh_withString_ne m _⟩,
    ⟨m.fresh, _, fmt_d v, int_show_eq x m v h, fresh_ne_zero m, fresh_not_live m, rfl,
      strAt_withString m _, rfl, rfl, _, _, int_show_eq x _ v (hl _),
      fresh_withString_ne m _⟩,
    ⟨_, print_fresh (Barebones.prep_antioch_show x) m _ hshowA, rfl, rfl, rfl, rfl⟩,
    ⟨_, print_fresh (BarebonesMacro.prep_antioch_show x) m _ hshowA, rfl, rfl, rfl, rfl⟩,
    ⟨_, print_fresh (NameConstrained.Antioch_to_Show x) m _ hshowA, rfl, rfl, rfl, rfl⟩,
    ⟨_, print_shen_int m x v h _ rfl rfl rfl, rfl, rfl, rfl, rfl⟩,
    fun hd p m1 s hs hstr => ⟨_, print_of_show hd m m1 p s hs hstr, rfl, rfl, rfl⟩,
    fun shen p m1 m2 e s hs he hstr =>
      ⟨_, print_shen_of_show shen m m1 m2 p e s hs he hstr, rfl, rfl, rfl⟩⟩

/-- Witness for claim C8: the object at address 5 holds 2 (`grenade`). -/
theorem owned_results_released_once_witness :
    (memWith 5 2).load 5 = some 2 ∧
    (∃ m2, Barebones.print (Barebones.prep_antioch_show 5) (memWith 5 2) = some ((), m2) ∧
      m2.heap = (memWith 5 2).heap ∧ m2.live.length = (memWith 5 2).live.length ∧
      m2.mallocs = (memWith 5 2).mallocs + 1 ∧ m2.frees = (memWith 5 2).frees + 1) ∧
    (∃ m2, Combined.print_shen { self := 5, showtc := (Combined.int_to_show 5).tc,
                                 enumtc := (Combined.int_to_enum 5).tc } (memWith 5 2)
        = some ((), m2) ∧
      m2.heap = (memWith 5 2).heap ∧ m2.live.length = (memWith 5 2).live.length ∧
      m2.mallocs = (memWith 5 2).mallocs + 1 ∧ m2.frees = (memWith 5 2).frees + 1) :=
  ⟨rfl, (owned_results_released_once (memWith 5 2) 5 2 rfl).2.2.1,
    (owned_results_released_once (memWith 5 2) 5 2 rfl).2.2.2.2.2.1⟩

/-- Claim C10. The three Antioch binders are interchangeable: for every memory and object
address `x`, the binder of barebones.c (explicit wrapper), the binder generated in
barebones-macro.c (typed function converted into the slot) and the name-derived binder of
name-constrained.c give handles with `self = &x` whose `show` slot returns the same result,
and `print` on them gives the same result; when `x` holds the tag `t` (in range or not),
each `print` succeeds and appends the same line, the text of `t` and a newline. -/
theorem antioch_binders_interchangeable (m : Mem) (x : Addr) (t : Int) :
    ((Barebones.prep_antioch_show x).self = x ∧
      (BarebonesMacro.prep_antioch_show x).self = x ∧
      (NameConstrained.Antioch_to_Show x).self = x) ∧
    ((BarebonesMacro.prep_antioch_show x).tc.pointee.show x m
        = (Barebones.prep_antioch_show x).tc.pointee.show x m ∧
      (NameConstrained.Antioch_to_Show x).tc.pointee.show x m
        = (Barebones.prep_antioch_show x).tc.pointee.show x m) ∧
    (BarebonesMacro.print (BarebonesMacro.prep_antioch_show x) m
        = Barebones.print (Barebones.prep_antioch_show x) m ∧
      NameConstrained.print (NameConstrained.Antioch_to_Show x) m
        = Barebones.print (Barebones.prep_antioch_show x) m) ∧
    (m.load x = some t →
      (∃ p m1, (Barebones.prep_antioch_show x).tc.pointee.show x m = some (p, m1) ∧
        m1.strAt p = some (antiochText t)) ∧
      ∃ m2, Barebones.print (Barebones.prep_antioch_show x) m = some ((), m2) ∧
        BarebonesMacro.print (BarebonesMacro.prep_antioch_show x) m = some ((), m2) ∧
        NameConstrained.print (NameConstrained.Antioch_to_Show x) m = some ((), m2) ∧
        m2.out = m.out ++ antiochText t ++ "\n") := by
  refine ⟨⟨rfl, rfl, rfl⟩, ⟨rfl, rfl⟩, ⟨rfl, rfl⟩, fun h => ?_⟩
  have hshowA : Barebones.antioch_show x m = some (m.fresh, m.withString (antiochText t)) :=
    antioch_show_eq x m t h
  exact ⟨⟨m.fresh, _, hshowA, strAt_withString m _⟩,
    _, print_fresh (Barebones.prep_antioch_show x) m _ hshowA,
    print_fresh (BarebonesMacro.prep_antioch_show x) m _ hshowA,
    print_fresh (NameConstrained.Antioch_to_Show x) m _ hshowA, rfl⟩

/-- Witness for claim C10: the object at address 5 holds the out-of-range tag -1. -/
theorem antioch_binders_interchangeable_witness :
    (memWith 5 (-1)).load 5 = some (-1) ∧
    (∃ p m1, (Barebones.prep_antioch_show 5).tc.pointee.show 5 (memWith 5 (-1))
          = some (p, m1) ∧
      m1.strAt p = some "breakfast cereal") ∧
    ∃ m2, Barebones.print (Barebones.prep_antioch_show 5) (memWith 5 (-1)) = some ((), m2) ∧
      BarebonesMacro.print (BarebonesMacro.prep_antioch_show 5) (memWith 5 (-1))
        = some ((), m2) ∧
      NameConstrained.print (NameConstrained.Antioch_to_Show 5) (memWith 5 (-1))
        = some ((), m2) ∧
      m2.out = (memWith 5 (-1)).out ++ "breakfast cereal" ++ "\n" :=
  ⟨rfl, (antioch_binders_interchangeable (memWith 5 (-1)) 5 (-1)).2.2.2 rfl⟩

end TypeclassC
